import Mathlib

/-!
Verification of the LLM-driven style-patch engine (`src/libs/style-chat.ts`).

The development shallowly embeds the engine's data model and operations:
JavaScript runtime values are modelled by `Json` (including the distinguished
`undef` value, since the engine's member accesses and spreads observe
`undefined`), and each source function is translated into a Lean function of
the same name.  The external collaborators (the strict-mode RFC 6902 apply
primitive `fast-json-patch`, `JSON.parse`, and the style validator) are
modelled as stated in the specification: the apply primitive as a strict
sequential applier that rejects the whole patch on the first failing
operation, and the validator / JSON parser as black-box function parameters.
-/

namespace StyleChat

/-- Decimal value of a digit string. -/
def digitsToNat (cs : List Char) : Nat :=
  cs.foldl (fun n c => n * 10 + (c.toNat - 48)) 0

/-- Canonical array index denoted by a JS property key: digits only, no
leading zero (except `"0"` itself); only such keys read array elements. -/
def canonicalIndex (k : String) : Option Nat :=
  match k.toList with
  | [] => none
  | c :: cs =>
      if (c :: cs).all Char.isDigit ∧ (c ≠ '0' ∨ cs = []) then
        some (digitsToNat (c :: cs))
      else none

/-- `s.startsWith pre` on character lists. -/
def strStartsWith (s pre : String) : Bool := pre.toList.isPrefixOf s.toList

/-- Split on a separator character, JS `String.prototype.split` style
(`"".split("/") = [""]`, separators at the ends produce empty segments). -/
def splitOnCharAux (sep : Char) : List Char → List Char → List String
  | [], acc => [String.mk acc.reverse]
  | c :: rest, acc =>
      if c = sep then
        String.mk acc.reverse :: splitOnCharAux sep rest []
      else splitOnCharAux sep rest (c :: acc)

/-- JS `path.split("/")`. -/
def splitSlash (s : String) : List String := splitOnCharAux '/' s.toList []

/-- Global replacement of the two-character pattern `a b` (left-to-right,
non-overlapping), as in `str.replace(/~1/g, ...)`. -/
def replacePair (a b : Char) (rep : List Char) : List Char → List Char
  | x :: y :: rest =>
      if x = a ∧ y = b then rep ++ replacePair a b rep rest
      else x :: replacePair a b rep (y :: rest)
  | l => l

/-- JSON Pointer segment decoding `~1 → /` then `~0 → ~`. -/
def decodePointerSegment (s : String) : String :=
  String.mk (replacePair '~' '0' ['~'] (replacePair '~' '1' ['/'] s.toList))

/-- JavaScript runtime values as observed by the engine: JSON values plus
`undefined` (member access on a missing key yields `undefined`). -/
inductive Json where
  | null
  | undef
  | bool (b : Bool)
  | num (n : Int)
  | str (s : String)
  | arr (items : List Json)
  | obj (fields : List (String × Json))

namespace Json

/-- JS member access `o[k]` for a string key: object property lookup; on an
array, canonical numeric strings index the elements and `"length"` yields the
length; anything else (including access on primitives) is `undefined`. -/
def getProp : Json → String → Json
  | obj fields, k => (fields.lookup k).getD undef
  | arr items, k =>
      if k = "length" then num items.length
      else
        match canonicalIndex k with
        | some n => items.getD n undef
        | none => undef
  | _, _ => undef

/-- JS property write `o[k] = v` on an object (used for spreads like
`{...op, path}`): replaces the value in place if the key exists, else appends.
Writes on non-objects are silent no-ops, as for JS primitives. -/
def setProp : Json → String → Json → Json
  | obj fields, k, v =>
      if (fields.lookup k).isSome then
        obj (fields.map (fun kv => if kv.1 = k then (k, v) else kv))
      else
        obj (fields ++ [(k, v)])
  | j, _, _ => j

/-- JS `delete o[k]` (used by the RFC 6902 `remove` operation). -/
def delProp : Json → String → Json
  | obj fields, k => obj (fields.filter (fun kv => kv.1 ≠ k))
  | j, _ => j

/-- JS truthiness: `undefined`, `null`, `false`, `0` and `""` are falsy. -/
def truthy : Json → Bool
  | null => false
  | undef => false
  | bool b => b
  | num n => n ≠ 0
  | str s => s ≠ ""
  | _ => true

/-- JS `a || b`. -/
def jsOr (a b : Json) : Json := if a.truthy then a else b

/-- Whether the value is object-typed in the sense of
`value && typeof value === "object"` (arrays included, `null` excluded). -/
def isObjLike : Json → Bool
  | arr _ => true
  | obj _ => true
  | _ => false

/-- Whether the value is a JS array (`Array.isArray`). -/
def isArr : Json → Bool
  | arr _ => true
  | _ => false

mutual

/-- Whether the value contains `undefined` anywhere (fast-json-patch's
`hasUndefined`, used to validate operation values). -/
def hasUndef : Json → Bool
  | undef => true
  | arr items => hasUndefList items
  | obj fields => hasUndefFields fields
  | _ => false

/-- `hasUndef` over the elements of an array. -/
def hasUndefList : List Json → Bool
  | [] => false
  | x :: xs => hasUndef x || hasUndefList xs

/-- `hasUndef` over the values of an object's fields. -/
def hasUndefFields : List (String × Json) → Bool
  | [] => false
  | (_, v) :: xs => hasUndef v || hasUndefFields xs

end

mutual

/-- Structural (deep) equality of JS values, as used by the RFC 6902 `test`
operation (fast-json-patch's `_areEquals`). -/
def eqb : Json → Json → Bool
  | null, null => true
  | undef, undef => true
  | bool a, bool b => a = b
  | num a, num b => a = b
  | str a, str b => a = b
  | arr xs, arr ys => eqbList xs ys
  | obj fs, obj gs => eqbFields fs gs
  | _, _ => false

/-- Deep equality of element lists. -/
def eqbList : List Json → List Json → Bool
  | [], [] => true
  | x :: xs, y :: ys => eqb x y && eqbList xs ys
  | _, _ => false

/-- Deep equality of field lists. -/
def eqbFields : List (String × Json) → List (String × Json) → Bool
  | [], [] => true
  | (k, v) :: xs, (l, w) :: ys => k = l && eqb v w && eqbFields xs ys
  | _, _ => false

end

/-- String payload of a string value, `none` otherwise (`typeof x === "string"`). -/
def asStr : Json → Option String
  | str s => some s
  | _ => none

/-- Strict equality of a value against a string literal (`x === "lit"`). -/
def eqStr (j : Json) (s : String) : Bool :=
  match j with
  | str t => t = s
  | _ => false

/-- Whether the value is exactly `undefined`. -/
def isUndef : Json → Bool
  | undef => true
  | _ => false

/-- Whether the value is `null` or `undefined` (property access on these
throws a `TypeError` in JS). -/
def isNullish : Json → Bool
  | null => true
  | undef => true
  | _ => false

end Json

/-!
### The strict-mode RFC 6902 apply primitive

The engine delegates patch application to the external collaborator
`fast-json-patch` via `applyPatch(doc, patch, true, true)` (validate every
operation, mutate the document).  The spec (§6) characterises it as a
strict-mode RFC 6902 apply that "must reject on first unresolvable/invalid
operation".  The model below reproduces that contract together with the
validator's error taxonomy, since the engine's retry ladder branches on the
error name `OPERATION_PATH_UNRESOLVABLE`.  Errors are `(name, message)`
pairs; `String(err)` is modelled as `name ++ ": " ++ message` (the library's
formatter appends further detail lines, which never contain an error name,
so the `includes` test below is unaffected).
-/

/-- A patch-application error: the error's `name` and human message. -/
structure PatchError where
  name : String
  msg : String
  deriving DecidableEq, Repr

/-- Error thrown when a `replace`/`remove` path does not resolve, or when a
path traverses a non-object; the retry ladder keys on this name. -/
def errPathUnresolvable : PatchError :=
  ⟨"OPERATION_PATH_UNRESOLVABLE", "Cannot perform operation at the desired path"⟩

/-- Validator variant of the unresolvable-path error. -/
def errPathDoesNotExist : PatchError :=
  ⟨"OPERATION_PATH_UNRESOLVABLE", "Cannot perform the operation at a path that does not exist"⟩

/-- Error for a malformed operation (not an object). -/
def errNotAnObject : PatchError :=
  ⟨"OPERATION_NOT_AN_OBJECT", "Operation is not an object"⟩

/-- Error for an unknown operation kind. -/
def errOpInvalid : PatchError :=
  ⟨"OPERATION_OP_INVALID", "Operation op property is not one of operations defined in RFC-6902"⟩

/-- Error for a non-string path. -/
def errPathNotString : PatchError :=
  ⟨"OPERATION_PATH_INVALID", "Operation path property is not a string"⟩

/-- Error for a path that does not start with a slash. -/
def errPathNoSlash : PatchError :=
  ⟨"OPERATION_PATH_INVALID", "Operation path property must start with a slash"⟩

/-- Error for a `move`/`copy` without a string `from`. -/
def errFromRequired : PatchError :=
  ⟨"OPERATION_FROM_REQUIRED", "Operation from property is not present"⟩

/-- Error for a missing `value` on `add`/`replace`/`test`. -/
def errValueRequired : PatchError :=
  ⟨"OPERATION_VALUE_REQUIRED", "Operation value property is not present"⟩

/-- Error for a `value` containing `undefined`. -/
def errValueUndefined : PatchError :=
  ⟨"OPERATION_VALUE_CANNOT_CONTAIN_UNDEFINED", "Operation value property is not present"⟩

/-- Error for an `add` whose path is missing more than its final segment. -/
def errCannotAdd : PatchError :=
  ⟨"OPERATION_PATH_CANNOT_ADD", "Cannot perform an add operation at the desired path"⟩

/-- Error for a `move`/`copy` whose `from` does not resolve. -/
def errFromUnresolvable : PatchError :=
  ⟨"OPERATION_FROM_UNRESOLVABLE", "Cannot perform the operation from a path that does not exist"⟩

/-- Error for a non-integer key addressing an array element. -/
def errIllegalIndex : PatchError :=
  ⟨"OPERATION_PATH_ILLEGAL_ARRAY_INDEX", "Expected an unsigned base-10 integer value"⟩

/-- Error for an array `add` beyond the array's length. -/
def errOutOfBounds : PatchError :=
  ⟨"OPERATION_VALUE_OUT_OF_BOUNDS", "The specified index MUST NOT be greater than the number of elements in the array"⟩

/-- Error for a failed `test` operation. -/
def errTestFailed : PatchError :=
  ⟨"TEST_OPERATION_FAILED", "Test operation failed"⟩

/-- JS `TypeError` surfaced by property access on `null`/`undefined` or by
the banned-prototype-key guard. -/
def errTypeError : PatchError :=
  ⟨"TypeError", "Cannot read properties of undefined"⟩

/-- Rendering used for `String(err)` in the engine's catch handler. -/
def PatchError.render (e : PatchError) : String := e.name ++ ": " ++ e.msg

/-- Rendering used for `err.message` in the engine's failure strings. -/
def PatchError.message (e : PatchError) : String := e.msg

/-- JSON Pointer component unescaping (`~1` then `~0`), applied by
fast-json-patch when a key contains a tilde. -/
def unescapePointerComponent (s : String) : String :=
  if s.toList.contains '~' then decodePointerSegment s else s

/-- fast-json-patch's `isInteger`: every character is a decimal digit (the
empty string vacuously qualifies, as in the library). -/
def isIntStr (s : String) : Bool := s.toList.all (fun c => c.isDigit)

/-- Decimal value of a digits-only key (`~~key`). -/
def strToNat (s : String) : Nat := digitsToNat s.toList

/-- Array index a key converts to inside the apply walk: `-` means append,
digit strings their value, anything else coerces to `0` (JS `splice`
coercion; only reachable through unvalidated inner operations). -/
def convIdx (items : List Json) (key : String) : Nat :=
  if key = "-" then items.length
  else if isIntStr key then strToNat key
  else 0

/-- `obj[key]` as evaluated inside the apply walk after array-key conversion
(digit strings index arrays even without canonical form, `-` reads one past
the end, `length` reads the length). -/
def convAccess (cur : Json) (key : String) : Json :=
  match cur with
  | .arr items =>
      if key = "-" then .undef
      else if isIntStr key then items.getD (strToNat key) .undef
      else if key = "length" then .num items.length
      else .undef
  | _ => cur.getProp key

/-- fast-json-patch's banned-prototype-key guard (`__proto__`, and
`prototype` right after `constructor`), which throws a `TypeError`. -/
def bannedKey (prevRaw : Option String) (key : String) : Bool :=
  key = "__proto__" || (key = "prototype" && prevRaw = some "constructor")

/-- The recognised RFC 6902 operation kinds (`objOps` keys). -/
def validOpName (s : String) : Bool :=
  s = "add" || s = "remove" || s = "replace" || s = "move" || s = "copy" ||
    s = "test" || s = "_get"

/-- The document-free part of fast-json-patch's `validator`, run before each
operation is applied. -/
def baseValidator (op : Json) : Option PatchError :=
  match op with
  | .obj _ =>
      let opName := (op.getProp "op").asStr
      let path := (op.getProp "path").asStr
      match opName with
      | none => some errOpInvalid
      | some name =>
          if ¬ validOpName name then some errOpInvalid
          else
            match path with
            | none => some errPathNotString
            | some p =>
                if p ≠ "" ∧ ¬ strStartsWith p "/" then some errPathNoSlash
                else if (name = "move" ∨ name = "copy") ∧
                    (op.getProp "from").asStr = none then some errFromRequired
                else if (name = "add" ∨ name = "replace" ∨ name = "test") ∧
                    (op.getProp "value").isUndef then some errValueRequired
                else if (name = "add" ∨ name = "replace" ∨ name = "test") ∧
                    (op.getProp "value").hasUndef then some errValueUndefined
                else none
  | _ => some errNotAnObject

/-- Validated resolution of a `_get` probe along a pointer, used by the
validator to check a `move`/`copy` `from` path (fast-json-patch's
`validate([{op:"_get",...}], document)`); returns the error the probe
raises, if any. -/
def validateGetPointerGo : Json → List String → List String → Bool → Option PatchError
  | _, _, [], _ => none
  | cur, pre, rawKey :: rest, fragDone =>
      let key := unescapePointerComponent rawKey
      if bannedKey pre.getLast? key then some errTypeError
      else if cur.isNullish then some errTypeError
      else
        let childStr := cur.getProp key
        let trigger := ¬ fragDone ∧ (childStr.isUndef ∨ rest = [])
        -- `_get` validator check: path must equal the fragment that exists
        if trigger ∧ childStr.isUndef then some errPathDoesNotExist
        else
          match cur with
          | .arr items =>
              if key = "-" then
                if rest = [] then none
                else some errPathUnresolvable
              else if ¬ isIntStr key then some errIllegalIndex
              else
                let idx := strToNat key
                if rest = [] then none
                else
                  let child := items.getD idx .undef
                  if ¬ child.isObjLike then some errPathUnresolvable
                  else validateGetPointerGo child (pre ++ [rawKey]) rest
                    (fragDone || trigger)
          | _ =>
              if rest = [] then none
              else
                let child := cur.getProp key
                if ¬ child.isObjLike then some errPathUnresolvable
                else validateGetPointerGo child (pre ++ [rawKey]) rest
                  (fragDone || trigger)

/-- Entry point for the validated `from`-path probe. -/
def validateGetPointer (doc : Json) (ptr : String) : Option PatchError :=
  if ptr = "" then none
  else if ¬ strStartsWith ptr "/" then some errPathNoSlash
  else validateGetPointerGo doc [""] ((splitSlash ptr).drop 1) false

/-- The document-aware part of fast-json-patch's `validator`, invoked from
inside the walk with the longest existing path fragment. -/
def docValidator (rootDoc : Json) (opName path fromPtr fragment : String) :
    Option PatchError :=
  if ¬ rootDoc.truthy then none
  else if opName = "add" then
    let pathLen := (splitSlash path).length
    let fragLen := (splitSlash fragment).length
    if pathLen ≠ fragLen + 1 ∧ pathLen ≠ fragLen then some errCannotAdd else none
  else if opName = "replace" ∨ opName = "remove" ∨ opName = "_get" then
    if path ≠ fragment then some errPathDoesNotExist else none
  else if opName = "move" ∨ opName = "copy" then
    match validateGetPointer rootDoc fromPtr with
    | some e =>
        if e.name = "OPERATION_PATH_UNRESOLVABLE" then some errFromUnresolvable
        else if e.name = "TypeError" then some e
        else none
    | none => none
  else none

/-- Unvalidated pointer read (`getValueByPointer`), used by `move`/`copy`. -/
def getByPointerGo : Json → List String → List String → Except PatchError Json
  | cur, _, [] => .ok cur
  | cur, pre, rawKey :: rest =>
      let key := unescapePointerComponent rawKey
      if bannedKey pre.getLast? key then .error errTypeError
      else if cur.isNullish then .error errTypeError
      else getByPointerGo (convAccess cur key) (pre ++ [rawKey]) rest

/-- Unvalidated pointer read from the document root. -/
def getByPointer (doc : Json) (ptr : String) : Except PatchError Json :=
  if ptr = "" then .ok doc
  else getByPointerGo doc [""] ((splitSlash ptr).drop 1)

/-- Unvalidated `remove` along a pointer (the inner operation `move` spawns). -/
def removeByPointerGo : Json → List String → List String → Except PatchError Json
  | cur, _, [] => .ok cur
  | cur, pre, rawKey :: rest =>
      let key := unescapePointerComponent rawKey
      if bannedKey pre.getLast? key then .error errTypeError
      else if cur.isNullish then .error errTypeError
      else if rest = [] then
        match cur with
        | .arr items => .ok (.arr (items.eraseIdx (convIdx items key)))
        | _ => .ok (cur.delProp key)
      else
        match removeByPointerGo (convAccess cur key) (pre ++ [rawKey]) rest with
        | .error e => .error e
        | .ok c =>
            match cur with
            | .arr items => .ok (.arr (items.set (convIdx items key) c))
            | _ => .ok (cur.setProp key c)

/-- Unvalidated `remove` from the document root (removing the root yields
`null`, as in the library). -/
def removeByPointer (doc : Json) (ptr : String) : Except PatchError Json :=
  if ptr = "" then .ok .null
  else removeByPointerGo doc [""] ((splitSlash ptr).drop 1)

/-- Unvalidated `add` along a pointer (the inner operation `move`/`copy`
spawn); array inserts clamp to the array length as JS `splice` does. -/
def addByPointerGo (value : Json) :
    Json → List String → List String → Except PatchError Json
  | cur, _, [] => .ok cur
  | cur, pre, rawKey :: rest =>
      let key := unescapePointerComponent rawKey
      if bannedKey pre.getLast? key then .error errTypeError
      else if cur.isNullish then .error errTypeError
      else if rest = [] then
        match cur with
        | .arr items =>
            let idx := convIdx items key
            .ok (.arr (items.take idx ++ [value] ++ items.drop idx))
        | _ => .ok (cur.setProp key value)
      else
        match addByPointerGo value (convAccess cur key) (pre ++ [rawKey]) rest with
        | .error e => .error e
        | .ok c =>
            match cur with
            | .arr items => .ok (.arr (items.set (convIdx items key) c))
            | _ => .ok (cur.setProp key c)

/-- Unvalidated `add` from the document root. -/
def addByPointer (doc : Json) (ptr : String) (value : Json) :
    Except PatchError Json :=
  if ptr = "" then .ok value
  else addByPointerGo value doc [""] ((splitSlash ptr).drop 1)

/-- Final application step on an array position. `move`/`copy` mutate the
whole document outside the walk and `_get` has no effect, so those leave the
array unchanged here. -/
def applyArrFinal (opName : String) (value : Json) (items : List Json)
    (idx : Nat) : Except PatchError Json :=
  if opName = "add" then .ok (.arr (items.take idx ++ [value] ++ items.drop idx))
  else if opName = "remove" then .ok (.arr (items.eraseIdx idx))
  else if opName = "replace" then .ok (.arr (items.set idx value))
  else if opName = "test" then
    if Json.eqb (items.getD idx .undef) value then .ok (.arr items)
    else .error errTestFailed
  else .ok (.arr items)

/-- Final application step on an object (or primitive, where JS property
writes are silent no-ops). -/
def applyObjFinal (opName : String) (value : Json) (cur : Json) (key : String) :
    Except PatchError Json :=
  if opName = "add" then .ok (cur.setProp key value)
  else if opName = "remove" then .ok (cur.delProp key)
  else if opName = "replace" then .ok (cur.setProp key value)
  else if opName = "test" then
    if Json.eqb (cur.getProp key) value then .ok cur
    else .error errTestFailed
  else .ok cur

/-- The validated apply walk of `applyOperation`: descends the path,
triggering the document-aware validator at the first missing key or at the
final key, enforcing array-index and traversal rules, and applying the
operation at the final position. -/
def walkApply (rootDoc : Json) (opName path fromPtr : String) (value : Json) :
    Json → List String → List String → Bool → Except PatchError Json
  | cur, _, [], _ => .ok cur
  | cur, pre, rawKey :: rest, fragDone =>
      let key := unescapePointerComponent rawKey
      if bannedKey pre.getLast? key then .error errTypeError
      else if cur.isNullish then .error errTypeError
      else
        let childStr := cur.getProp key
        let trigger := ¬ fragDone ∧ (childStr.isUndef ∨ rest = [])
        let fragment := if childStr.isUndef then String.intercalate "/" pre else path
        match (if trigger then docValidator rootDoc opName path fromPtr fragment
               else none) with
        | some e => .error e
        | none =>
            match cur with
            | .arr items =>
                if key = "-" then
                  if rest = [] then applyArrFinal opName value items items.length
                  else .error errPathUnresolvable
                else if ¬ isIntStr key then .error errIllegalIndex
                else
                  let idx := strToNat key
                  if rest = [] then
                    if opName = "add" ∧ idx > items.length then .error errOutOfBounds
                    else applyArrFinal opName value items idx
                  else
                    let child := items.getD idx .undef
                    if ¬ child.isObjLike then .error errPathUnresolvable
                    else
                      match walkApply rootDoc opName path fromPtr value child
                          (pre ++ [rawKey]) rest (fragDone || trigger) with
                      | .error e => .error e
                      | .ok c => .ok (.arr (items.set idx c))
            | _ =>
                if rest = [] then applyObjFinal opName value cur key
                else
                  let child := cur.getProp key
                  if ¬ child.isObjLike then .error errPathUnresolvable
                  else
                    match walkApply rootDoc opName path fromPtr value child
                        (pre ++ [rawKey]) rest (fragDone || trigger) with
                    | .error e => .error e
                    | .ok c => .ok (cur.setProp key c)

/-- One strict-mode `applyOperation(doc, op, validateOperation := true)`:
validates the operation, handles root-path operations directly, and
otherwise runs the walk; `move`/`copy` then perform their document-level
effect via the unvalidated inner operations. -/
def applyOperation (doc : Json) (op : Json) : Except PatchError Json :=
  match baseValidator op with
  | some e => .error e
  | none =>
      let opName := ((op.getProp "op").asStr).getD ""
      let path := ((op.getProp "path").asStr).getD ""
      let value := op.getProp "value"
      let fromPtr := ((op.getProp "from").asStr).getD ""
      if path = "" then
        if opName = "add" then .ok value
        else if opName = "replace" then .ok value
        else if opName = "move" ∨ opName = "copy" then getByPointer doc fromPtr
        else if opName = "test" then
          if Json.eqb doc value then .ok doc else .error errTestFailed
        else if opName = "remove" then .ok .null
        else .ok doc
      else
        match walkApply doc opName path fromPtr value doc [""]
            ((splitSlash path).drop 1) false with
        | .error e => .error e
        | .ok newDoc =>
            if opName = "move" then
              match getByPointer doc fromPtr with
              | .error e => .error e
              | .ok removed =>
                  match removeByPointer doc fromPtr with
                  | .error e => .error e
                  | .ok doc1 => addByPointer doc1 path removed
            else if opName = "copy" then
              match getByPointer doc fromPtr with
              | .error e => .error e
              | .ok v => addByPointer doc path v
            else .ok newDoc

/-- Whether a successful root operation rebinds the apply loop's document to
a fresh object, detaching it from the variable the caller passed in
(`add`/`replace` substitute the operation value, `remove` substitutes
`null`, `move`/`copy` substitute the `from` value unless `from` is the root
itself; `test`/`_get` keep the same object). -/
def rootDetaches (opName fromPtr : String) : Bool :=
  opName = "add" || opName = "replace" || opName = "remove" ||
    ((opName = "move" || opName = "copy") && fromPtr ≠ "")

/-- Strict sequential `applyPatch(cell, patch, true, true)` as observed
through the caller's variable: `cell` tracks the value of the variable the
patch was applied to (mutated in place by non-root operations), `doc` the
apply loop's chained document, and `attached` whether the two still alias.
Stops at the first failing operation, leaving the operations already applied
visible in the cell, exactly as the mutating strict-mode library call does. -/
def applyPatchCellGo : Json → Json → Bool → List Json → Json × Option PatchError
  | cell, _, _, [] => (cell, none)
  | cell, doc, attached, op :: rest =>
      match applyOperation doc op with
      | .error e => (cell, some e)
      | .ok d =>
          let opName := ((op.getProp "op").asStr).getD ""
          let fromPtr := ((op.getProp "from").asStr).getD ""
          let isRoot := (op.getProp "path").eqStr ""
          let att := attached && !(isRoot && rootDetaches opName fromPtr)
          applyPatchCellGo (if att then d else cell) d att rest

/-- `applyPatch(doc, patch, true, true)` observed through the mutated
argument: the final value of the caller's variable together with the error
that aborted the patch, if any. -/
def applyPatchCell (doc : Json) (patch : List Json) : Json × Option PatchError :=
  applyPatchCellGo doc doc true patch

/-- JS `hay.includes(needle)` on character lists. -/
def hasInfix (needle : List Char) : List Char → Bool
  | [] => needle.isEmpty
  | c :: t => needle.isPrefixOf (c :: t) || hasInfix needle t

/-- The engine's test `String(err).includes("OPERATION_PATH_UNRESOLVABLE")`. -/
def isUnresolvableError (e : PatchError) : Bool :=
  hasInfix "OPERATION_PATH_UNRESOLVABLE".toList e.render.toList

/-!
### `resolveLayerIdsInPatch`

Rewrites `/layers/<layer_id>/...` paths to `/layers/<index>/...` using the
style's layers (style-chat.ts lines 24–49).
-/

/-- The test `/^\d+$/` on a decoded path segment. -/
def regexAllDigits (s : String) : Bool := s ≠ "" && s.toList.all (fun c => c.isDigit)

/-- Lookup in the `idToIndex` map built by iterating the layers in order and
setting `id ↦ index` for every layer whose `id` is a string (a later layer
with the same id overwrites an earlier one, as `Map.set` does). -/
def layerIdToIndex (layers : List Json) (key : String) : Option Nat :=
  layers.enum.foldl
    (fun acc p =>
      match (p.2.getProp "id").asStr with
      | some id => if id = key then some p.1 else acc
      | none => acc)
    none

/-- Per-operation resolution step of `resolveLayerIdsInPatch`. -/
def resolveLayerOp (layers : List Json) (op : Json) : Json :=
  match (op.getProp "path").asStr with
  | none => op
  | some path =>
      if ¬ strStartsWith path "/layers/" then op
      else
        let segments := (splitSlash path).filter (fun s => s.length > 0)
        if segments.length < 2 ∨ segments.getD 0 "" ≠ "layers" then op
        else
          let layerSegment := segments.getD 1 ""
          let layerSegmentDecoded := decodePointerSegment layerSegment
          if regexAllDigits layerSegmentDecoded then op
          else
            match layerIdToIndex layers layerSegmentDecoded with
            | none => op
            | some index =>
                let rest := String.intercalate "/" (segments.drop 2)
                let newPath := "/layers/" ++ toString index ++
                  (if rest ≠ "" then "/" ++ rest else "")
                op.setProp "path" (.str newPath)

/-- `resolveLayerIdsInPatch(style, patch)`: passes the patch through
untouched when `style.layers` is not an array, otherwise resolves each
operation independently. -/
def resolveLayerIdsInPatch (style : Json) (patch : List Json) : List Json :=
  match style.getProp "layers" with
  | .arr layers => patch.map (resolveLayerOp layers)
  | _ => patch

/-!
### `extractPatchArrayFromText` and `parseJsonFromResponse`

Patch extraction from prose-wrapped model text (lines 82–109), and the
call-site fallback structure of lines 187–202.  `JSON.parse` is an external
collaborator and is passed in as a function returning `none` on a parse
error.
-/

/-- The character class `\s` of JS regular expressions (and the class
`String.prototype.trim` strips), restricted to the code points that occur in
practice; all ASCII whitespace plus the common Unicode members. -/
def jsWhitespace (c : Char) : Bool :=
  c = ' ' || c = '\t' || c = '\n' || c = '\r' || c = '\x0b' || c = '\x0c' ||
    c = Char.ofNat 0xa0 || c = Char.ofNat 0x2028 || c = Char.ofNat 0x2029 ||
    c = Char.ofNat 0xfeff

/-- JS `String.prototype.trim` on a character list. -/
def jsTrimList (cs : List Char) : List Char :=
  ((cs.dropWhile jsWhitespace).reverse.dropWhile jsWhitespace).reverse

/-- JS `String.prototype.trim`. -/
def jsTrim (s : String) : String := String.mk (jsTrimList s.toList)

/-- Whether a character is one of the two JS quote characters of the
character class `["']`. -/
def isQuote (c : Char) : Bool := c = '"' || c = Char.ofNat 39

/-- Tail of the start pattern: a quote, `op`, a quote. -/
def matchQuoteOpQuote : List Char → Bool
  | q1 :: 'o' :: 'p' :: q2 :: _ => isQuote q1 && isQuote q2
  | _ => false

/-- Remainder of the start pattern after the opening bracket: optional
whitespace, `{`, optional whitespace, an optional backslash, then a quoted
`op`. -/
def matchAfterBracket (rest : List Char) : Bool :=
  match rest.dropWhile jsWhitespace with
  | c2 :: rest2 =>
      c2 == '\x7b' &&
        (match rest2.dropWhile jsWhitespace with
         | '\\' :: r3 => matchQuoteOpQuote r3
         | r3 => matchQuoteOpQuote r3)
  | [] => false

/-- Whether the regex `\[\s*\{\s*\\?["']op["']` matches at the head of the
character list. -/
def matchStartAt : List Char → Bool
  | [] => false
  | c :: rest => c == '[' && matchAfterBracket rest

/-- Index of the earliest match of the start pattern (`regex.match` returns
the leftmost occurrence). -/
def findPatchStartAux : List Char → Nat → Option Nat
  | [], _ => none
  | c :: rest, i =>
      if matchStartAt (c :: rest) then some i
      else findPatchStartAux rest (i + 1)

/-- Forward bracket-depth scan from the matched opening bracket: returns the
absolute index of the closing bracket at which the depth returns to zero. -/
def bracketScan : List Char → Nat → Nat → Option Nat
  | [], _, _ => none
  | c :: rest, depth, i =>
      if c = '[' then bracketScan rest (depth + 1) (i + 1)
      else if c = ']' then
        if depth = 1 then some i
        else bracketScan rest (depth - 1) (i + 1)
      else bracketScan rest depth (i + 1)

/-- `extractPatchArrayFromText(raw)`: trim, find the earliest start-pattern
match, bracket-match forward, and slice out exactly the array substring;
`none` when the pattern is absent or the brackets never balance. -/
def extractPatchArrayFromText (raw : String) : Option String :=
  let trimmed := jsTrimList raw.toList
  match findPatchStartAux trimmed 0 with
  | none => none
  | some start =>
      match bracketScan (trimmed.drop start) 0 start with
      | none => none
      | some endIdx =>
          some (String.mk ((trimmed.drop start).take (endIdx + 1 - start)))

/-- Index of the last occurrence of a character. -/
def lastIdxOf (c : Char) (cs : List Char) : Option Nat :=
  cs.enum.foldl (fun acc p => if p.2 = c then some p.1 else acc) none

/-- Leftmost-then-greedy match of `(\[[\s\S]*\]|\{[\s\S]*\})`: the first
position holding `[` with some `]` after it (spanning to the last `]`), or
holding `{` with some `}` after it (spanning to the last `}`). -/
def looseSpanFrom (lastSq lastCur : Option Nat) :
    List Char → Nat → Option (Nat × Nat)
  | [], _ => none
  | c :: rest, p =>
      if c = '[' then
        match lastSq with
        | some q => if p < q then some (p, q) else looseSpanFrom lastSq lastCur rest (p + 1)
        | none => looseSpanFrom lastSq lastCur rest (p + 1)
      else if c = '\x7b' then
        match lastCur with
        | some q => if p < q then some (p, q) else looseSpanFrom lastSq lastCur rest (p + 1)
        | none => looseSpanFrom lastSq lastCur rest (p + 1)
      else looseSpanFrom lastSq lastCur rest (p + 1)

/-- The substring `parseJsonFromResponse` matches with its loose regex, if
any. -/
def looseJsonSpan (cs : List Char) : Option (List Char) :=
  match looseSpanFrom (lastIdxOf ']' cs) (lastIdxOf '\x7d' cs) cs 0 with
  | some (p, q) => some ((cs.drop p).take (q + 1 - p))
  | none => none

/-- `parseJsonFromResponse(raw)` (lines 82–87): trim, take the loose span if
the regex matches (else the whole trimmed text) and hand it to `JSON.parse`. -/
def parseJsonFromResponse (jsonParse : String → Option Json) (raw : String) :
    Option Json :=
  let trimmed := jsTrimList raw.toList
  let jsonString :=
    match looseJsonSpan trimmed with
    | some cs => String.mk cs
    | none => String.mk trimmed
  jsonParse jsonString

/-- The parse cascade of lines 187–202: try the extracted patch-array
substring first, then fall back to `parseJsonFromResponse` on the whole
text; `none` means the engine fails with the unparsable-output error. -/
def parseModelReply (jsonParse : String → Option Json) (raw : String) :
    Option Json :=
  match extractPatchArrayFromText raw with
  | some s =>
      match jsonParse s with
      | some v => some v
      | none => parseJsonFromResponse jsonParse raw
  | none => parseJsonFromResponse jsonParse raw

/-!
### Response-envelope handling and the orchestrator tail

`getTextFromAnthropicResponse` (lines 66–73), `isApiWrapper` (lines 76–79),
the one-level envelope unwrap (lines 208–222), the application ladder
(lines 231–272) and the validation tail (lines 273–293).  The style
validator is a black-box parameter returning the list of error messages
(each error's optional `message` field).
-/

/-- Whether a value is object-typed in the JS sense used by `isApiWrapper`
(`typeof o.usage === "object"`): objects, arrays and `null`. -/
def typeofIsObject : Json → Bool
  | .null => true
  | .arr _ => true
  | .obj _ => true
  | _ => false

/-- `getTextFromAnthropicResponse(data)`: join the text of every text-typed
content block, or `null` when there are none. -/
def getTextFromAnthropicResponse (data : Json) : Option String :=
  match data.getProp "content" with
  | .arr blocks =>
      let parts := blocks.filterMap (fun b =>
        if (b.getProp "type").eqStr "text" then (b.getProp "text").asStr else none)
      if parts.length > 0 then some (String.join parts) else none
  | _ => none

/-- `isApiWrapper(obj)`: content is an array, usage is object-typed and
model is a string. -/
def isApiWrapper (o : Json) : Bool :=
  (o.getProp "content").isArr && typeofIsObject (o.getProp "usage") &&
    (o.getProp "model").asStr.isSome

/-- The inner text the single unwrap step reads (lines 209–212): the `text`
field of element `0` of the wrapper's `content` array, when it is a string. -/
def unwrapInnerText (parsed : Json) : Option String :=
  let inner := parsed.getProp "content"
  let innerArr := match inner with | .arr xs => xs | _ => []
  ((innerArr.getD 0 .undef).getProp "text").asStr

/-- The result variants of `editStyleWithLLM` (`EditStyleResult`). -/
inductive EditResultM where
  | ok (style : Json) (explanation : Option String)
  | fail (error : String)

/-- Coercion `{...op, op: "replace"}` applied to `add` operations. -/
def coerceAddToReplace (op : Json) : Json :=
  if (op.getProp "op").eqStr "add" then op.setProp "op" (.str "replace") else op

/-- Coercion `{...op, op: "add"}` applied to `replace` operations. -/
def coerceReplaceToAdd (op : Json) : Json :=
  if (op.getProp "op").eqStr "replace" then op.setProp "op" (.str "add") else op

/-- The retry ladder of lines 231–272, on value copies (`cloneDeep` of a
pure value is the value itself).  Returns the ladder's outcome — the final
value of `styleCopy` on success, or the error whose message the failure
string carries — together with the trace of patches handed to `tryApply`,
in order. -/
def applyLadder (style : Json) (patch : List Json) :
    Except PatchError Json × List (List Json) :=
  let hasAdd := patch.any (fun op => (op.getProp "op").eqStr "add")
  let hasReplace := patch.any (fun op => (op.getProp "op").eqStr "replace")
  if hasAdd then
    let patchAsReplace := patch.map coerceAddToReplace
    match applyPatchCell style patchAsReplace with
    | (cell, none) => (.ok cell, [patchAsReplace])
    | (_, some e1) =>
        if isUnresolvableError e1 then
          match applyPatchCell style patch with
          | (cell, none) => (.ok cell, [patchAsReplace, patch])
          | (_, some e2) => (.error e2, [patchAsReplace, patch])
        else (.error e1, [patchAsReplace])
  else
    match applyPatchCell style patch with
    | (cell, none) => (.ok cell, [patch])
    | (_, some e) =>
        if hasReplace then
          let patchWithAdd := patch.map coerceReplaceToAdd
          match applyPatchCell style patchWithAdd with
          | (cell, none) => (.ok cell, [patch, patchWithAdd])
          | (_, some e2) => (.error e2, [patch, patchWithAdd])
        else (.error e, [patch])

/-- Object spread `{...j}` as used when stamping the `id` (non-objects
spread their own enumerable properties: arrays and strings their indexed
elements, primitives nothing). -/
def spreadToObj : Json → Json
  | .obj fs => .obj fs
  | .arr xs => .obj (xs.enum.map (fun p => (toString p.1, p.2)))
  | .str s => .obj (s.toList.enum.map (fun p => (toString p.1, .str (String.mk [p.2]))))
  | _ => .obj []

/-- `{...j, id: (j.id as string) || style.id}`. -/
def stampId (j : Json) (style : Json) : Json :=
  (spreadToObj j).setProp "id" (Json.jsOr (j.getProp "id") (style.getProp "id"))

/-- The orchestrator from the parsed model output onward (lines 204–293):
the null/non-object guard, the single provider-envelope unwrap, the
empty-patch short-circuit, resolution, the apply ladder, the post-patch
validation, and the full-style fallback branch.  Also returns the ladder's
`tryApply` trace (empty when application never ran). -/
def editStyleFromParsed (jsonParse : String → Option Json)
    (validate : Json → List (Option String)) (style : Json) (parsed0 : Json) :
    EditResultM × List (List Json) :=
  if ¬ parsed0.isObjLike then
    (.fail "Model response was not JSON object or array.", [])
  else
    let unwrapped : Except EditResultM Json :=
      if isApiWrapper parsed0 then
        match unwrapInnerText parsed0 with
        | some innerText =>
            (match extractPatchArrayFromText innerText with
             | some s =>
                 match jsonParse s with
                 | some v => .ok v
                 | none => .error (.fail "Could not parse style from nested response.")
             | none =>
                 match parseJsonFromResponse jsonParse innerText with
                 | some v => .ok v
                 | none => .error (.fail "Could not parse style from nested response."))
        | none => .error (.fail "Response was API wrapper; no content found.")
      else .ok parsed0
    match unwrapped with
    | .error r => (r, [])
    | .ok parsed =>
        match parsed with
        | .arr items =>
            if items.length = 0 then
              (.ok style (some "No changes requested."), [])
            else
              let patch := resolveLayerIdsInPatch style items
              match applyLadder style patch with
              | (.error e, tr) => (.fail ("Patch failed: " ++ e.message), tr)
              | (.ok styleCopy, tr) =>
                  let withId := stampId styleCopy style
                  match validate withId with
                  | [] => (.ok withId none, tr)
                  | e0 :: _ =>
                      (.fail ("Style invalid after patch: " ++
                        (e0.getD "Invalid style after patch.")), tr)
        | _ =>
            let outStyle := stampId parsed style
            match validate outStyle with
            | [] => (.ok outStyle none, [])
            | e0 :: _ =>
                (.fail ("Invalid style: " ++ (e0.getD "validation failed")), [])

/-!
### Reference-level view of the orchestrator

To state that `edit(D, ...)` never mutates the caller's document, documents
are placed in an explicit store of mutable cells.  `cloneDeep` allocates a
fresh cell holding the source cell's value; `applyPatch(styleCopy, ...)`
mutates the cell it is handed (leaving the operations applied before a
failure visible there, as the strict mutating call does).  The orchestrator
below mirrors `editStyleFromParsed` cell for cell: the caller's document
lives in the cell `styleRef` and is only ever read.
-/

/-- A heap of JS objects addressed by reference. -/
abbrev Store := List Json

/-- Read the value behind a reference. -/
def readRef (s : Store) (r : Nat) : Json := s.getD r Json.undef

/-- Overwrite the value behind a reference (in-place mutation). -/
def writeRef (s : Store) (r : Nat) (v : Json) : Store := s.set r v

/-- `cloneDeep`: allocate a fresh cell holding a deep copy of the source
cell's current value. -/
def cloneDeepAlloc (s : Store) (r : Nat) : Store × Nat :=
  (s ++ [readRef s r], s.length)

/-- `tryApply`: run the strict mutating apply against the cell behind `r`,
recording the mutated value (partial on failure) back into the cell. -/
def tryApplyRef (s : Store) (r : Nat) (p : List Json) :
    Store × Option PatchError :=
  match applyPatchCell (readRef s r) p with
  | (cell, e) => (writeRef s r cell, e)

/-- The retry ladder of lines 231–272 acting on store cells: `styleCopy` is
allocated by `cloneDeep(style)` and re-allocated before each retry; the
caller's cell is only read.  Returns the final store, the reference holding
the last `styleCopy`, and the ladder's error, if any. -/
def applyLadderRef (s0 : Store) (styleRef : Nat) (patch : List Json) :
    Store × Nat × Option PatchError :=
  let hasAdd := patch.any (fun op => (op.getProp "op").eqStr "add")
  let hasReplace := patch.any (fun op => (op.getProp "op").eqStr "replace")
  let alloc1 := cloneDeepAlloc s0 styleRef
  if hasAdd then
    let patchAsReplace := patch.map coerceAddToReplace
    match tryApplyRef alloc1.1 alloc1.2 patchAsReplace with
    | (s2, none) => (s2, alloc1.2, none)
    | (s2, some e1) =>
        if isUnresolvableError e1 then
          let alloc2 := cloneDeepAlloc s2 styleRef
          match tryApplyRef alloc2.1 alloc2.2 patch with
          | (s4, e2) => (s4, alloc2.2, e2)
        else (s2, alloc1.2, some e1)
  else
    match tryApplyRef alloc1.1 alloc1.2 patch with
    | (s2, none) => (s2, alloc1.2, none)
    | (s2, some e) =>
        if hasReplace then
          let alloc2 := cloneDeepAlloc s2 styleRef
          match tryApplyRef alloc2.1 alloc2.2 (patch.map coerceReplaceToAdd) with
          | (s4, e2) => (s4, alloc2.2, e2)
        else (s2, alloc1.2, some e)

/-- `editStyleFromParsed` acting on a store, with the caller's document in
the cell `styleRef`; every application works on freshly allocated clone
cells, exactly as the source allocates `styleCopy`. -/
def editStyleFromParsedRef (jsonParse : String → Option Json)
    (validate : Json → List (Option String)) (s0 : Store) (styleRef : Nat)
    (parsed0 : Json) : Store × EditResultM :=
  let style := readRef s0 styleRef
  if ¬ parsed0.isObjLike then
    (s0, .fail "Model response was not JSON object or array.")
  else
    let unwrapped : Except EditResultM Json :=
      if isApiWrapper parsed0 then
        match unwrapInnerText parsed0 with
        | some innerText =>
            (match extractPatchArrayFromText innerText with
             | some s =>
                 match jsonParse s with
                 | some v => .ok v
                 | none => .error (.fail "Could not parse style from nested response.")
             | none =>
                 match parseJsonFromResponse jsonParse innerText with
                 | some v => .ok v
                 | none => .error (.fail "Could not parse style from nested response."))
        | none => .error (.fail "Response was API wrapper; no content found.")
      else .ok parsed0
    match unwrapped with
    | .error r => (s0, r)
    | .ok parsed =>
        match parsed with
        | .arr items =>
            if items.length = 0 then
              (s0, .ok style (some "No changes requested."))
            else
              let patch := resolveLayerIdsInPatch style items
              match applyLadderRef s0 styleRef patch with
              | (s1, _, some e) =>
                  (s1, .fail ("Patch failed: " ++ e.message))
              | (s1, copyRef, none) =>
                  let withId := stampId (readRef s1 copyRef) style
                  match validate withId with
                  | [] => (s1, .ok withId none)
                  | e0 :: _ =>
                      (s1, .fail ("Style invalid after patch: " ++
                        (e0.getD "Invalid style after patch.")))
        | _ =>
            let outStyle := stampId parsed style
            match validate outStyle with
            | [] => (s0, .ok outStyle none)
            | e0 :: _ =>
                (s0, .fail ("Invalid style: " ++ (e0.getD "validation failed")))

/-!
### The pre-network phase: configuration guard and request construction

Lines 121–156: the proxy/credential guard and the request body (system
instruction, trimmed history window, current user turn).  `JSON.stringify`
is an external builtin and is passed in as a function.
-/

/-- The style-spec reference URL interpolated into the system prompt. -/
def STYLE_SPEC_REF : String := "https://maplibre.org/maplibre-style-spec/"

/-- The patch-mode system prompt (lines 9–18). -/
def getSystemPromptPatch : String :=
  "You edit MapLibre GL map styles. You receive the current style JSON and a user request. Return ONLY a JSON Patch (RFC 6902) array that, when applied to the style, makes the requested change.\n\nRules:\n- Output nothing but a JSON array of patch operations. No markdown, no explanation, no commentary before or after the array. Example: [\x7b\"op\":\"replace\",\"path\":\"/layers/roads_minor/paint/line-color\",\"value\":\"#d8d8d8\"\x7d]\n- Paths use JSON Pointer with layer id (not index): /layers/<layer_id>/paint/line-color, e.g. /layers/roads_minor/paint/line-color or /layers/landuse_park/paint/fill-color. We resolve layer id to index automatically. The path must end at a property name. Never use array indices on property values (no /paint/line-color/0 or /3). Paint properties like line-color, fill-color are strings or expressions; set the whole value with one replace/add.\n- Use \"replace\" for existing properties, \"add\" for new ones. For paint or layout properties that may be missing (e.g. line-dasharray, line-cap), use \"add\" so the patch works whether the property exists or not. Preserve id, sources, glyphs, sprite unless the user asks to change them.\n- For label overlap: adjust symbol layers\x27 layout/paint (text-size, text-max-width, text-optional, symbol-spacing, text-allow-overlap). Spec: " ++
    STYLE_SPEC_REF ++ "\n- Only include operations that change something."

/-- Proxy path used in development. -/
def ANTHROPIC_PROXY_PATH : String := "/api/anthropic/messages"

/-- Default model identifier. -/
def DEFAULT_MODEL : String := "claude-3-5-haiku-latest"

/-- Patch-mode max output tokens. -/
def PATCH_MAX_TOKENS : Nat := 4096

/-- A conversation turn. -/
structure ChatMsg where
  role : String
  content : String
  deriving DecidableEq, Repr

/-- The request body sent to the model endpoint. -/
structure RequestBody where
  model : String
  maxTokens : Nat
  system : String
  messages : List ChatMsg
  deriving DecidableEq, Repr

/-- The missing-credential failure message (lines 131–133). -/
def missingApiKeyMsg : String :=
  "Missing API key. Set VITE_ANTHROPIC_API_KEY or, in dev, ANTHROPIC_API_KEY on the server."

/-- The guard's credential test `!apiKey?.trim()`: the key is absent, or
trims to the empty string. -/
def apiKeyBlank (apiKey : Option String) : Bool :=
  match apiKey with
  | none => true
  | some k => jsTrim k = ""

/-- The current user turn (line 137–140), embedding the pretty-printed
style and the prompt. -/
def buildCurrentTurn (stringify : Json → String) (style : Json)
    (prompt : String) : ChatMsg :=
  ⟨"user", "Current style JSON:\n```json\n" ++ stringify style ++
    "\n```\n\nUser request: " ++ prompt⟩

/-- The pre-network phase of `editStyleWithLLM` (lines 130–148): reject a
non-proxy endpoint without a usable credential before any network call,
otherwise build the request body with the last six history turns followed
by the new user turn. -/
def editStylePre (stringify : Json → String) (modelEnv : Option String)
    (style : Json) (prompt : String) (apiKey : Option String)
    (apiUrl : String) (conversationHistory : List ChatMsg) :
    EditResultM ⊕ RequestBody :=
  let useProxy := strStartsWith apiUrl "/"
  if ¬ useProxy ∧ apiKeyBlank apiKey then .inl (.fail missingApiKeyMsg)
  else
    let recentHistory :=
      (conversationHistory.drop (conversationHistory.length - 6)).map
        (fun m => ⟨m.role, m.content⟩)
    let currentTurn := buildCurrentTurn stringify style prompt
    .inr ⟨(match modelEnv with
           | some m => if m ≠ "" then m else DEFAULT_MODEL
           | none => DEFAULT_MODEL),
          PATCH_MAX_TOKENS, getSystemPromptPatch,
          recentHistory ++ [currentTurn]⟩

/-- Document of the C1 counterexample. -/
def c1Style : Json := Json.obj [("a", Json.num 1)]

/-- Patch of the C1 counterexample: a `replace` of the missing key `b` and
an `add` of the fresh key `c`. -/
def c1Patch : List Json :=
  [Json.obj [("op", Json.str "replace"), ("path", Json.str "/b"),
    ("value", Json.num 2)],
   Json.obj [("op", Json.str "add"), ("path", Json.str "/c"),
    ("value", Json.num 3)]]

/-- A text-typed content block with the given text. -/
def textBlock (s : String) : Json :=
  Json.obj [("type", Json.str "text"), ("text", Json.str s)]

/-- A provider envelope whose inner content holds two text blocks. -/
def twoBlockWrapper (s t m : String) : Json :=
  Json.obj [("content", Json.arr [textBlock s, textBlock t]),
    ("usage", Json.obj []), ("model", Json.str m)]

/-- Number of opening brackets among the first `k` characters. -/
def opensCount (u : List Char) (k : Nat) : Nat := (u.take k).count '['

/-- Number of closing brackets among the first `k` characters. -/
def closesCount (u : List Char) (k : Nat) : Nat := (u.take k).count ']'

/-- Position `m` is the bracket-depth-matched closing bracket relative to a
scan started at position `0` of `u` exactly when the opening and closing
bracket counts of `u.take (m+1)` agree (the running depth returns to zero).
This is the specification-side reading of "bracket-depth counting forward
from that point to find the matching closing bracket". -/
def bracketBalanced (u : List Char) (m : Nat) : Prop :=
  opensCount u (m + 1) = closesCount u (m + 1)

instance (u : List Char) (m : Nat) : Decidable (bracketBalanced u m) := by
  unfold bracketBalanced
  infer_instance

/-!
## Theorems
-/

/-- C3: when the extracted model output is an empty patch array, the edit
returns success carrying the original document unchanged together with the
explanation "No changes requested.", with an empty application trace and a
result independent of the validator and the JSON parser (so resolution,
application and validation are never invoked). -/
theorem c3_empty_patch_short_circuit (jsonParse : String → Option Json)
    (validate : Json → List (Option String)) (style : Json) :
    editStyleFromParsed jsonParse validate style (.arr []) =
      (.ok style (some "No changes requested."), []) := by rfl

/-- C9: when the document's `layers` field is absent or not an array, the
reference resolver returns the input patch completely unchanged. -/
theorem c9_resolver_passthrough (style : Json) (patch : List Json)
    (h : (style.getProp "layers").isArr = false) :
    resolveLayerIdsInPatch style patch = patch := by
  unfold resolveLayerIdsInPatch
  cases hl : style.getProp "layers" <;> simp_all [Json.isArr]

/-- Witness for C9 at a document with no `layers` field. -/
theorem c9_resolver_passthrough_witness :
    ((Json.obj [("id", Json.str "s")]).getProp "layers").isArr = false ∧
      resolveLayerIdsInPatch (Json.obj [("id", Json.str "s")])
        [Json.obj [("op", Json.str "add")]] = [Json.obj [("op", Json.str "add")]] :=
  ⟨rfl, c9_resolver_passthrough _ _ rfl⟩

/-- C7: when the endpoint URL is not an internal relative path and the
credential is absent or blank after trimming, the pre-network phase rejects
the call with the explicit missing-credential failure instead of producing
a request. -/
theorem c7_missing_credential (stringify : Json → String)
    (modelEnv : Option String) (style : Json) (prompt : String)
    (apiKey : Option String) (apiUrl : String) (history : List ChatMsg)
    (hurl : strStartsWith apiUrl "/" = false)
    (hkey : apiKey = none ∨ ∃ k, apiKey = some k ∧ jsTrim k = "") :
    editStylePre stringify modelEnv style prompt apiKey apiUrl history =
      .inl (.fail missingApiKeyMsg) := by
  have hblank : apiKeyBlank apiKey = true := by
    rcases hkey with h | ⟨k, hk, ht⟩
    · simp [apiKeyBlank, h]
    · simp [apiKeyBlank, hk, ht]
  unfold editStylePre
  simp [hurl, hblank]

/-- Witness for C7 at an absolute endpoint with a whitespace-only key. -/
theorem c7_missing_credential_witness :
    editStylePre (fun _ => "") none (Json.obj []) "p" (some "   ")
        "https://api.anthropic.com/v1/messages" [] =
      .inl (.fail missingApiKeyMsg) :=
  c7_missing_credential _ _ _ _ _ _ _ (by decide) (.inr ⟨"   ", rfl, by decide⟩)

/-- C8: whenever the pre-network phase produces a request, its message list
is exactly the last six turns of the conversation history (all of them when
there are six or fewer), in their original order, followed by the newly
built user turn; earlier turns are dropped. -/
theorem c8_history_window (stringify : Json → String)
    (modelEnv : Option String) (style : Json) (prompt : String)
    (apiKey : Option String) (apiUrl : String) (history : List ChatMsg)
    (body : RequestBody)
    (h : editStylePre stringify modelEnv style prompt apiKey apiUrl history =
      .inr body) :
    body.messages = (history.reverse.take 6).reverse ++
      [buildCurrentTurn stringify style prompt] := by
  have hr : (history.reverse.take 6).reverse = history.drop (history.length - 6) := by
    rw [← List.rtake_eq_reverse_take_reverse, List.rtake]
  unfold editStylePre at h
  by_cases hguard : (¬ strStartsWith apiUrl "/" = true) ∧ apiKeyBlank apiKey = true
  · simp [hguard] at h
  · simp only [if_neg hguard] at h
    cases h
    simp [hr]

/-- Witness for C8 on a seven-turn history: the first turn is dropped. -/
theorem c8_history_window_witness :
    (editStylePre (fun _ => "S") none (Json.obj []) "p" none "/api/anthropic/messages"
        ((List.range 7).map (fun i => ⟨"user", toString i⟩)) =
      .inr ⟨DEFAULT_MODEL, PATCH_MAX_TOKENS, getSystemPromptPatch,
        ((List.range 7).map (fun i => (⟨"user", toString i⟩ : ChatMsg))).drop 1 ++
          [buildCurrentTurn (fun _ => "S") (Json.obj []) "p"]⟩) ∧
    (((List.range 7).map (fun i => (⟨"user", toString i⟩ : ChatMsg))).drop 1 ++
        [buildCurrentTurn (fun _ => "S") (Json.obj []) "p"] =
      ((((List.range 7).map (fun i => (⟨"user", toString i⟩ : ChatMsg))).reverse.take 6).reverse ++
        [buildCurrentTurn (fun _ => "S") (Json.obj []) "p"])) := by
  constructor
  · rfl
  · have := c8_history_window (fun _ => "S") none (Json.obj []) "p" none
      "/api/anthropic/messages"
      ((List.range 7).map (fun i => ⟨"user", toString i⟩))
      ⟨DEFAULT_MODEL, PATCH_MAX_TOKENS, getSystemPromptPatch,
        ((List.range 7).map (fun i => (⟨"user", toString i⟩ : ChatMsg))).drop 1 ++
          [buildCurrentTurn (fun _ => "S") (Json.obj []) "p"]⟩ rfl
    simpa using this.symm

/-- C10: on a provider envelope whose inner content holds two text blocks,
the single unwrap step reads only the first block's `text` (the second is
ignored), whereas top-level extraction concatenates all text-typed blocks
in order. -/
theorem c10_unwrap_first_block_only (s t m : String) :
    isApiWrapper (twoBlockWrapper s t m) = true ∧
    unwrapInnerText (twoBlockWrapper s t m) = some s ∧
    getTextFromAnthropicResponse (twoBlockWrapper s t m) = some (s ++ t) := by
  refine ⟨rfl, rfl, ?_⟩
  show (if 0 < 2 then some (("" ++ s) ++ t) else none) = some (s ++ t)
  simp

/-- Reading below the allocation point is unaffected by an allocation. -/
theorem readRef_alloc_lt (s : Store) (v : Json) (i : Nat) (hi : i < s.length) :
    readRef (s ++ [v]) i = readRef s i := by
  unfold readRef
  simp [List.getD_eq_getElem?_getD, List.getElem?_append_left hi]

/-- Reading a cell other than the written one is unaffected by a write. -/
theorem readRef_write_ne (s : Store) (r : Nat) (v : Json) (i : Nat)
    (hne : r ≠ i) :
    readRef (writeRef s r v) i = readRef s i := by
  unfold readRef writeRef
  simp [List.getD_eq_getElem?_getD, List.getElem?_set_ne hne]

/-- Frame shape of one clone-then-apply round: the fresh cell is past the
end of the original store. -/
theorem readRef_frame_one (s0 : Store) (v c : Json) (i : Nat)
    (hi : i < s0.length) :
    readRef (writeRef (s0 ++ [v]) s0.length c) i = readRef s0 i := by
  rw [readRef_write_ne _ _ _ _ (by omega), readRef_alloc_lt _ _ _ hi]

/-- Frame shape of two clone-then-apply rounds. -/
theorem readRef_frame_two (s0 : Store) (v c v2 c2 : Json) (i : Nat)
    (hi : i < s0.length) :
    readRef (writeRef (writeRef (s0 ++ [v]) s0.length c ++ [v2])
      (writeRef (s0 ++ [v]) s0.length c).length c2) i = readRef s0 i := by
  rw [readRef_write_ne _ _ _ _ (by simp [writeRef]; omega),
    readRef_alloc_lt _ _ _ (by simp [writeRef]; omega),
    readRef_frame_one _ _ _ _ hi]

/-- The retry ladder never writes any cell that existed before the call; in
particular the caller's document cell is untouched. -/
theorem applyLadderRef_frame (s0 : Store) (styleRef : Nat)
    (patch : List Json) (i : Nat) (hi : i < s0.length) :
    readRef (applyLadderRef s0 styleRef patch).1 i = readRef s0 i := by
  unfold applyLadderRef cloneDeepAlloc tryApplyRef
  dsimp only
  split
  · split
    · next heq =>
        rcases heq2 : applyPatchCell
          (readRef (s0 ++ [readRef s0 styleRef]) s0.length)
          (patch.map coerceAddToReplace) with ⟨c1, e1⟩
        rw [heq2] at heq
        cases heq
        exact readRef_frame_one s0 _ _ i hi
    · next s2 e1 heq =>
        rcases heq2 : applyPatchCell
          (readRef (s0 ++ [readRef s0 styleRef]) s0.length)
          (patch.map coerceAddToReplace) with ⟨c1, e1'⟩
        rw [heq2] at heq
        cases heq
        split
        · rcases heq3 : applyPatchCell (readRef
            (writeRef (s0 ++ [readRef s0 styleRef]) s0.length c1 ++
              [readRef (writeRef (s0 ++ [readRef s0 styleRef]) s0.length c1) styleRef])
            (writeRef (s0 ++ [readRef s0 styleRef]) s0.length c1).length)
            patch with ⟨c2, e2⟩
          exact readRef_frame_two s0 _ _ _ _ i hi
        · exact readRef_frame_one s0 _ _ i hi
  · split
    · next heq =>
        rcases heq2 : applyPatchCell
          (readRef (s0 ++ [readRef s0 styleRef]) s0.length) patch with ⟨c1, e1⟩
        rw [heq2] at heq
        cases heq
        exact readRef_frame_one s0 _ _ i hi
    · next s2 e1 heq =>
        rcases heq2 : applyPatchCell
          (readRef (s0 ++ [readRef s0 styleRef]) s0.length) patch with ⟨c1, e1'⟩
        rw [heq2] at heq
        cases heq
        split
        · rcases heq3 : applyPatchCell (readRef
            (writeRef (s0 ++ [readRef s0 styleRef]) s0.length c1 ++
              [readRef (writeRef (s0 ++ [readRef s0 styleRef]) s0.length c1) styleRef])
            (writeRef (s0 ++ [readRef s0 styleRef]) s0.length c1).length)
            (patch.map coerceReplaceToAdd) with ⟨c2, e2⟩
          exact readRef_frame_two s0 _ _ _ _ i hi
        · exact readRef_frame_one s0 _ _ i hi

/-- C2: the caller's document is deep-equal before and after the call,
whether the result is success or failure: for every parsed model output,
running the orchestrator with the caller's document in cell 0 of the store
leaves cell 0 exactly as it was — every application attempt operates on a
freshly allocated deep copy, never on the caller's cell. -/
theorem c2_caller_document_unchanged (jsonParse : String → Option Json)
    (validate : Json → List (Option String)) (D : Json) (parsed : Json) :
    readRef (editStyleFromParsedRef jsonParse validate [D] 0 parsed).1 0 = D := by
  have hframe : ∀ patch, readRef (applyLadderRef [D] 0 patch).1 0 = D :=
    fun patch => applyLadderRef_frame [D] 0 patch 0 (by simp)
  unfold editStyleFromParsedRef
  dsimp only
  repeat' split
  all_goals first
    | rfl
    | (rename applyLadderRef [D] 0 _ = _ => heq
       exact (congrArg (fun t => readRef t.1 0) heq.symm).trans (hframe _))

/-- C5: whenever application succeeds but the validator reports one or more
errors on the resulting document, the edit returns the failure whose message
is "Style invalid after patch: " followed by the first reported validator
message, and never returns success. -/
theorem c5_validator_errors_fail (jsonParse : String → Option Json)
    (validate : Json → List (Option String)) (style : Json)
    (items : List Json) (d : Json) (tr : List (List Json)) (m : String)
    (restErr : List (Option String))
    (hne : items ≠ [])
    (hladder : applyLadder style (resolveLayerIdsInPatch style items) = (.ok d, tr))
    (hval : validate (stampId d style) = some m :: restErr) :
    editStyleFromParsed jsonParse validate style (.arr items) =
      (.fail ("Style invalid after patch: " ++ m), tr) ∧
    ∀ out expl tr2, editStyleFromParsed jsonParse validate style (.arr items) ≠
      (.ok out expl, tr2) := by
  have hmain : editStyleFromParsed jsonParse validate style (.arr items) =
      (.fail ("Style invalid after patch: " ++ m), tr) := by
    unfold editStyleFromParsed
    have hlen : items.length ≠ 0 := by
      simpa [List.length_eq_zero] using hne
    have hc : canonicalIndex "content" = (none : Option Nat) := rfl
    have hu : canonicalIndex "usage" = (none : Option Nat) := rfl
    have hm2 : canonicalIndex "model" = (none : Option Nat) := rfl
    simp [isApiWrapper, Json.getProp, Json.isArr, Json.asStr, typeofIsObject,
      hc, hu, hm2, hlen, hladder, hval]
    intro h
    simp [Json.isObjLike] at h
  refine ⟨hmain, ?_⟩
  intro out expl tr2 hcontra
  rw [hmain] at hcontra
  exact absurd (congrArg Prod.fst hcontra) (by simp)

/-- Witness for C5: a one-operation add patch whose application succeeds and
a validator reporting the single message "boom". -/
theorem c5_validator_errors_fail_witness :
    editStyleFromParsed (fun _ => none) (fun _ => [some "boom"]) (Json.obj [])
        (.arr [Json.obj [("op", Json.str "add"), ("path", Json.str "/x"),
          ("value", Json.num 1)]]) =
      (.fail "Style invalid after patch: boom",
        [[Json.obj [("op", Json.str "replace"), ("path", Json.str "/x"),
            ("value", Json.num 1)]],
         [Json.obj [("op", Json.str "add"), ("path", Json.str "/x"),
            ("value", Json.num 1)]]]) :=
  (c5_validator_errors_fail (fun _ => none) (fun _ => [some "boom"])
    (Json.obj []) _ (Json.obj [("x", Json.num 1)]) _ "boom" []
    (by simp) (by rfl) (by rfl)).1

/-- C4 counterexample: for the operation path `/layers/water//x` (an empty
segment after the layer id), the resolver rewrites the path to
`/layers/0/x`, dropping the empty segment instead of preserving every
subsequent path segment verbatim (which would give `/layers/0//x`). -/
theorem c4_resolver_counterexample :
    (resolveLayerIdsInPatch
        (Json.obj [("layers", Json.arr [Json.obj [("id", Json.str "water")]])])
        [Json.obj [("op", Json.str "replace"),
          ("path", Json.str "/layers/water//x"), ("value", Json.str "#fff")]]).map
      (fun o => (o.getProp "path").asStr) = [some "/layers/0/x"] ∧
    ("/layers/0/x" : String) ≠ "/layers/0//x" :=
  ⟨rfl, by decide⟩

/-- C4 (amended): for an operation whose string path starts with the layers
collection and has a second nonempty segment: a purely numeric decoded
second segment leaves the operation untouched; an unknown identifier leaves
the operation with its original path; a known identifier rewrites only the
second segment to the layer's index, rebuilding the path from the nonempty
segments after it in order (empty segments are dropped); and the resolver
always returns one output operation per input operation. -/
theorem c4_resolver_cases (layers : List Json) (style : Json) (op : Json)
    (p : String) (seg1 : String) (restSegs : List String)
    (hstyle : style.getProp "layers" = .arr layers)
    (hpath : (op.getProp "path").asStr = some p)
    (hpre : strStartsWith p "/layers/" = true)
    (hsegs : (splitSlash p).filter (fun s => s.length > 0) =
      "layers" :: seg1 :: restSegs) :
    (regexAllDigits (decodePointerSegment seg1) = true →
      resolveLayerIdsInPatch style [op] = [op]) ∧
    (regexAllDigits (decodePointerSegment seg1) = false →
      layerIdToIndex layers (decodePointerSegment seg1) = none →
      resolveLayerIdsInPatch style [op] = [op]) ∧
    (∀ i, regexAllDigits (decodePointerSegment seg1) = false →
      layerIdToIndex layers (decodePointerSegment seg1) = some i →
      resolveLayerIdsInPatch style [op] =
        [op.setProp "path" (.str ("/layers/" ++ toString i ++
          (if String.intercalate "/" restSegs ≠ "" then
            "/" ++ String.intercalate "/" restSegs else "")))]) ∧
    (resolveLayerIdsInPatch style [op]).length = 1 := by
  have hlen : ¬ ((splitSlash p).filter (fun s => s.length > 0)).length < 2 := by
    rw [hsegs]; simp
  have hhead : ((splitSlash p).filter (fun s => s.length > 0)).getD 0 "" = "layers" := by
    rw [hsegs]; rfl
  have hseg1 : ((splitSlash p).filter (fun s => s.length > 0)).getD 1 "" = seg1 := by
    rw [hsegs]; rfl
  have hdrop : ((splitSlash p).filter (fun s => s.length > 0)).drop 2 = restSegs := by
    rw [hsegs]; rfl
  refine ⟨?_, ?_, ?_, ?_⟩ <;>
    simp only [resolveLayerIdsInPatch, hstyle, List.map, resolveLayerOp, hpath,
      hpre, hlen, hhead, hseg1, hdrop]
  · intro hdig
    simp [hdig]
  · intro hdig hnone
    simp [hdig, hnone]
  · intro i hdig hsome
    simp [hdig, hsome]
  · split <;> simp_all

/-- C1 counterexample: a patch containing both a `replace` on a missing key
and an `add`, against the document `{a: 1}`.  The add→replace attempt fails
path-unresolvable, the original patch also fails, and the patch contains a
`replace`; yet the applier returns the failure after exactly those two
attempts, never trying the replace→add coercion — which would in fact have
succeeded on a fresh deep copy. -/
theorem c1_ladder_counterexample :
    (c1Patch.any (fun op => (op.getProp "op").eqStr "add") = true) ∧
    (c1Patch.any (fun op => (op.getProp "op").eqStr "replace") = true) ∧
    ((applyPatchCell c1Style (c1Patch.map coerceAddToReplace)).2.map
      isUnresolvableError = some true) ∧
    ((applyPatchCell c1Style c1Patch).2.isSome = true) ∧
    (applyLadder c1Style c1Patch).1 = .error errPathDoesNotExist ∧
    (applyLadder c1Style c1Patch).2 = [c1Patch.map coerceAddToReplace, c1Patch] ∧
    (c1Patch.map coerceReplaceToAdd) ∉ (applyLadder c1Style c1Patch).2 ∧
    (applyPatchCell c1Style (c1Patch.map coerceReplaceToAdd)).2 = none := by
  refine ⟨rfl, rfl, rfl, rfl, rfl, rfl, ?_, rfl⟩
  intro h
  have htr : (applyLadder c1Style c1Patch).2 =
      [c1Patch.map coerceAddToReplace, c1Patch] := rfl
  rw [htr] at h
  rcases List.mem_cons.mp h with h1 | h2
  · exact absurd
      (congrArg (fun (l : List Json) => ((l.headD .null).getProp "op").asStr) h1)
      (by decide)
  · rcases List.mem_cons.mp h2 with h3 | h4
    · exact absurd
        (congrArg (fun (l : List Json) => ((l.headD .null).getProp "op").asStr) h3)
        (by decide)
    · simp at h4

/-- C1 (amended): the further attempt with every `replace` coerced to `add`
is performed only when the patch contains no `add` operations.  (a) With no
adds and at least one replace, a failing initial attempt is followed by
exactly one replace→add retry on a fresh deep copy, whose outcome decides
the result.  (b) With neither adds nor replaces, the initial failure is
returned with no retry.  (c) With adds present, after the add→replace
attempt fails path-unresolvable and the original patch also fails, the
applier returns that failure after exactly those two attempts, with no
replace→add retry. -/
theorem c1_ladder_amended (style : Json) (patch : List Json) :
    (patch.any (fun op => (op.getProp "op").eqStr "add") = false →
     patch.any (fun op => (op.getProp "op").eqStr "replace") = true →
     ∀ c e, applyPatchCell style patch = (c, some e) →
       (applyLadder style patch).2 = [patch, patch.map coerceReplaceToAdd] ∧
       (applyLadder style patch).1 =
         (match applyPatchCell style (patch.map coerceReplaceToAdd) with
          | (cell, none) => .ok cell
          | (_, some e2) => .error e2)) ∧
    (patch.any (fun op => (op.getProp "op").eqStr "add") = false →
     patch.any (fun op => (op.getProp "op").eqStr "replace") = false →
     ∀ c e, applyPatchCell style patch = (c, some e) →
       applyLadder style patch = (.error e, [patch])) ∧
    (patch.any (fun op => (op.getProp "op").eqStr "add") = true →
     ∀ c1 e1 c2 e2,
       applyPatchCell style (patch.map coerceAddToReplace) = (c1, some e1) →
       isUnresolvableError e1 = true →
       applyPatchCell style patch = (c2, some e2) →
       applyLadder style patch =
         (.error e2, [patch.map coerceAddToReplace, patch])) := by
  refine ⟨?_, ?_, ?_⟩
  · intro hadd hrep c e happ
    unfold applyLadder
    rcases hcoerced : applyPatchCell style (patch.map coerceReplaceToAdd)
      with ⟨c2, e2⟩
    cases e2 <;> simp [hadd, hrep, happ, hcoerced]
  · intro hadd hrep c e happ
    unfold applyLadder
    simp [hadd, hrep, happ]
  · intro hadd c1 e1 c2 e2 h1 hunres h2
    unfold applyLadder
    simp [hadd, h1, hunres, h2]

/-- Witness for C1 (amended), case (a): a single replace on a missing key
with no add operations is retried as an add and succeeds. -/
theorem c1_ladder_amended_witness :
    (applyLadder (Json.obj [])
        [Json.obj [("op", Json.str "replace"), ("path", Json.str "/b"),
          ("value", Json.num 2)]]).2 =
      [[Json.obj [("op", Json.str "replace"), ("path", Json.str "/b"),
          ("value", Json.num 2)]],
       [Json.obj [("op", Json.str "add"), ("path", Json.str "/b"),
          ("value", Json.num 2)]]] :=
  ((c1_ladder_amended (Json.obj [])
    [Json.obj [("op", Json.str "replace"), ("path", Json.str "/b"),
      ("value", Json.num 2)]]).1 rfl rfl (Json.obj []) errPathDoesNotExist
    (by rfl)).1

/-- A successful start-pattern match begins with an opening bracket. -/
theorem matchStartAt_head (u : List Char) (h : matchStartAt u = true) :
    ∃ v, u = '[' :: v := by
  cases u with
  | nil => simp [matchStartAt] at h
  | cons c rest =>
      refine ⟨rest, ?_⟩
      simp only [matchStartAt, Bool.and_eq_true, beq_iff_eq] at h
      rw [h.1]

/-- The linear scan returns the least index at which the start pattern
matches. -/
theorem findPatchStartAux_some (cs : List Char) (base off : Nat)
    (hmatch : matchStartAt (cs.drop off) = true)
    (hmin : ∀ i, i < off → matchStartAt (cs.drop i) = false) :
    findPatchStartAux cs base = some (base + off) := by
  induction cs generalizing base off with
  | nil => simp at hmatch; exact absurd hmatch (by simp [matchStartAt])
  | cons c rest ih =>
      cases off with
      | zero =>
          simp only [List.drop_zero] at hmatch
          simp [findPatchStartAux, hmatch]
      | succ o =>
          have h0 : matchStartAt (c :: rest) = false := by
            simpa using hmin 0 (Nat.succ_pos o)
          simp only [findPatchStartAux, h0, Bool.false_eq_true, if_false]
          have := ih (base + 1) o (by simpa using hmatch)
            (fun i hi => by simpa using hmin (i + 1) (by omega))
          rw [this]
          congr 1
          omega

/-- When the start pattern matches nowhere, the scan fails. -/
theorem findPatchStartAux_none (cs : List Char) (base : Nat)
    (h : ∀ i, matchStartAt (cs.drop i) = false) :
    findPatchStartAux cs base = none := by
  induction cs generalizing base with
  | nil => rfl
  | cons c rest ih =>
      have h0 : matchStartAt (c :: rest) = false := by simpa using h 0
      simp only [findPatchStartAux, h0, Bool.false_eq_true, if_false]
      exact ih (base + 1) (fun i => by simpa using h (i + 1))

/-- One more character changes a bracket count by at most one, monotonely. -/
theorem countTake_succ_bound (a : Char) (u : List Char) (k : Nat) :
    (u.take k).count a ≤ (u.take (k + 1)).count a ∧
    (u.take (k + 1)).count a ≤ (u.take k).count a + 1 := by
  rw [List.take_succ]
  cases h : u[k]? with
  | none => simp
  | some c =>
      by_cases hc : c = a <;>
        simp [List.count_append, List.count_singleton, hc]

/-- Unfolding lemma for `opensCount` across a head character. -/
theorem opensCount_cons (c : Char) (rest : List Char) (k : Nat) :
    opensCount (c :: rest) (k + 1) =
      opensCount rest k + (if c = '[' then 1 else 0) := by
  by_cases hc : c = '[' <;>
    simp [opensCount, List.count_cons, hc]

/-- Unfolding lemma for `closesCount` across a head character. -/
theorem closesCount_cons (c : Char) (rest : List Char) (k : Nat) :
    closesCount (c :: rest) (k + 1) =
      closesCount rest k + (if c = ']' then 1 else 0) := by
  by_cases hc : c = ']' <;>
    simp [closesCount, List.count_cons, hc]

/-- Up to the first balance point of a text starting with an opening
bracket, closing brackets never outnumber opening ones. -/
theorem closes_le_opens_of_least (v : List Char) (m : Nat)
    (hne : ∀ k, k < m →
      opensCount ('[' :: v) (k + 1) ≠ closesCount ('[' :: v) (k + 1)) :
    ∀ k, k ≤ m → closesCount ('[' :: v) k ≤ opensCount ('[' :: v) k := by
  intro k
  induction k with
  | zero => intro _; simp [opensCount, closesCount]
  | succ k ih =>
      intro hk
      have ihk := ih (Nat.le_of_succ_le hk)
      rcases Nat.eq_zero_or_pos k with h0 | hpos
      · subst h0
        simp [opensCount, closesCount]
      · have hne' := hne (k - 1) (by omega)
        have hkeq : (k - 1) + 1 = k := by omega
        rw [hkeq] at hne'
        have hstrict : closesCount ('[' :: v) k < opensCount ('[' :: v) k :=
          lt_of_le_of_ne ihk (fun h => hne' h.symm)
        have hb1 := countTake_succ_bound ']' ('[' :: v) k
        have hb2 := countTake_succ_bound '[' ('[' :: v) k
        unfold opensCount closesCount at *
        omega

/-- Zero characters contain no brackets. -/
theorem opensCount_zero (u : List Char) : opensCount u 0 = 0 := by
  simp [opensCount]

/-- Zero characters contain no brackets. -/
theorem closesCount_zero (u : List Char) : closesCount u 0 = 0 := by
  simp [closesCount]

/-- The forward bracket scan, entered at positive depth, stops exactly at
the least balance point. -/
theorem bracketScan_some (u : List Char) (d i m : Nat) (hd : 1 ≤ d)
    (hm : d + opensCount u (m + 1) = closesCount u (m + 1))
    (hleast : ∀ k, k < m → d + opensCount u (k + 1) ≠ closesCount u (k + 1))
    (hpos : ∀ k, k ≤ m → closesCount u k ≤ d + opensCount u k)
    (hlen : m < u.length) :
    bracketScan u d i = some (i + m) := by
  induction u generalizing d i m with
  | nil => simp at hlen
  | cons c rest ih =>
      by_cases hc : c = '['
      · subst hc
        have hoE : ∀ k, opensCount ('[' :: rest) (k + 1) = opensCount rest k + 1 := by
          intro k; rw [opensCount_cons]; simp
        have hclE : ∀ k, closesCount ('[' :: rest) (k + 1) = closesCount rest k := by
          intro k; rw [closesCount_cons]; simp
        cases m with
        | zero =>
            exfalso
            rw [hoE 0, hclE 0, opensCount_zero, closesCount_zero] at hm
            omega
        | succ m' =>
            have hm' : (d + 1) + opensCount rest (m' + 1) =
                closesCount rest (m' + 1) := by
              have h1 := hm; rw [hoE, hclE] at h1; omega
            have hleast' : ∀ k, k < m' →
                (d + 1) + opensCount rest (k + 1) ≠ closesCount rest (k + 1) := by
              intro k hk
              have h1 := hleast (k + 1) (by omega)
              rw [hoE, hclE] at h1; omega
            have hpos' : ∀ k, k ≤ m' →
                closesCount rest k ≤ (d + 1) + opensCount rest k := by
              intro k hk
              rcases Nat.eq_zero_or_pos k with h0 | hkpos
              · subst h0; rw [opensCount_zero, closesCount_zero]; omega
              · obtain ⟨k', rfl⟩ : ∃ k', k = k' + 1 := ⟨k - 1, by omega⟩
                have h1 := hpos (k' + 1 + 1) (by omega)
                rw [hoE, hclE] at h1; omega
            have hr := ih (d + 1) (i + 1) m' (by omega) hm' hleast' hpos'
              (by simpa using hlen)
            simp only [bracketScan, if_pos rfl]
            rw [show i + (m' + 1) = (i + 1) + m' by omega]
            exact hr
      · by_cases hc2 : c = ']'
        · subst hc2
          have hoE : ∀ k, opensCount (']' :: rest) (k + 1) = opensCount rest k := by
            intro k; rw [opensCount_cons]; simp
          have hclE : ∀ k, closesCount (']' :: rest) (k + 1) =
              closesCount rest k + 1 := by
            intro k; rw [closesCount_cons]; simp
          cases m with
          | zero =>
              rw [hoE 0, hclE 0, opensCount_zero, closesCount_zero] at hm
              have hone : d = 1 := by omega
              simp [bracketScan, hone]
          | succ m' =>
              have hd1 : ¬ d = 1 := by
                have h1 := hleast 0 (by omega)
                rw [hoE 0, hclE 0, opensCount_zero, closesCount_zero] at h1
                omega
              have hm' : (d - 1) + opensCount rest (m' + 1) =
                  closesCount rest (m' + 1) := by
                have h1 := hm; rw [hoE, hclE] at h1; omega
              have hleast' : ∀ k, k < m' →
                  (d - 1) + opensCount rest (k + 1) ≠ closesCount rest (k + 1) := by
                intro k hk
                have h1 := hleast (k + 1) (by omega)
                rw [hoE, hclE] at h1; omega
              have hpos' : ∀ k, k ≤ m' →
                  closesCount rest k ≤ (d - 1) + opensCount rest k := by
                intro k hk
                rcases Nat.eq_zero_or_pos k with h0 | hkpos
                · subst h0; rw [opensCount_zero, closesCount_zero]; omega
                · obtain ⟨k', rfl⟩ : ∃ k', k = k' + 1 := ⟨k - 1, by omega⟩
                  have h1 := hpos (k' + 1 + 1) (by omega)
                  rw [hoE, hclE] at h1; omega
              have hr := ih (d - 1) (i + 1) m' (by omega) hm' hleast' hpos'
                (by simpa using hlen)
              simp only [bracketScan, if_neg hc, if_pos rfl, hd1, if_false]
              rw [show i + (m' + 1) = (i + 1) + m' by omega]
              exact hr
        · have hoE : ∀ k, opensCount (c :: rest) (k + 1) = opensCount rest k := by
            intro k; rw [opensCount_cons]; simp [hc]
          have hclE : ∀ k, closesCount (c :: rest) (k + 1) = closesCount rest k := by
            intro k; rw [closesCount_cons]; simp [hc2]
          cases m with
          | zero =>
              exfalso
              rw [hoE 0, hclE 0, opensCount_zero, closesCount_zero] at hm
              omega
          | succ m' =>
              have hm' : d + opensCount rest (m' + 1) =
                  closesCount rest (m' + 1) := by
                have h1 := hm; rw [hoE, hclE] at h1; omega
              have hleast' : ∀ k, k < m' →
                  d + opensCount rest (k + 1) ≠ closesCount rest (k + 1) := by
                intro k hk
                have h1 := hleast (k + 1) (by omega)
                rw [hoE, hclE] at h1; omega
              have hpos' : ∀ k, k ≤ m' →
                  closesCount rest k ≤ d + opensCount rest k := by
                intro k hk
                rcases Nat.eq_zero_or_pos k with h0 | hkpos
                · subst h0; rw [opensCount_zero, closesCount_zero]; omega
                · obtain ⟨k', rfl⟩ : ∃ k', k = k' + 1 := ⟨k - 1, by omega⟩
                  have h1 := hpos (k' + 1 + 1) (by omega)
                  rw [hoE, hclE] at h1; omega
              have hr := ih d (i + 1) m' hd hm' hleast' hpos'
                (by simpa using hlen)
              simp only [bracketScan, if_neg hc, if_neg hc2]
              rw [show i + (m' + 1) = (i + 1) + m' by omega]
              exact hr

/-- When the running depth never returns to zero, the scan fails. -/
theorem bracketScan_none (u : List Char) (d i : Nat)
    (hnever : ∀ k, d + opensCount u (k + 1) ≠ closesCount u (k + 1))
    (hpos : ∀ k, closesCount u k ≤ d + opensCount u k) :
    bracketScan u d i = none := by
  induction u generalizing d i with
  | nil => rfl
  | cons c rest ih =>
      by_cases hc : c = '['
      · subst hc
        have hoE : ∀ k, opensCount ('[' :: rest) (k + 1) = opensCount rest k + 1 := by
          intro k; rw [opensCount_cons]; simp
        have hclE : ∀ k, closesCount ('[' :: rest) (k + 1) = closesCount rest k := by
          intro k; rw [closesCount_cons]; simp
        have hnever' : ∀ k, (d + 1) + opensCount rest (k + 1) ≠
            closesCount rest (k + 1) := by
          intro k
          have h1 := hnever (k + 1)
          rw [hoE, hclE] at h1; omega
        have hpos' : ∀ k, closesCount rest k ≤ (d + 1) + opensCount rest k := by
          intro k
          rcases Nat.eq_zero_or_pos k with h0 | hkpos
          · subst h0; rw [opensCount_zero, closesCount_zero]; omega
          · obtain ⟨k', rfl⟩ : ∃ k', k = k' + 1 := ⟨k - 1, by omega⟩
            have h1 := hpos (k' + 1 + 1)
            rw [hoE, hclE] at h1; omega
        simp only [bracketScan, if_pos rfl]
        exact ih (d + 1) (i + 1) hnever' hpos'
      · by_cases hc2 : c = ']'
        · subst hc2
          have hoE : ∀ k, opensCount (']' :: rest) (k + 1) = opensCount rest k := by
            intro k; rw [opensCount_cons]; simp
          have hclE : ∀ k, closesCount (']' :: rest) (k + 1) =
              closesCount rest k + 1 := by
            intro k; rw [closesCount_cons]; simp
          have hge : 1 ≤ d := by
            have h1 := hpos 1
            rw [hclE 0, closesCount_zero] at h1
            have h2 : opensCount (']' :: rest) 1 = opensCount rest 0 := hoE 0
            rw [opensCount_zero] at h2
            omega
          have hd1 : ¬ d = 1 := by
            have h1 := hnever 0
            rw [hoE 0, hclE 0, opensCount_zero, closesCount_zero] at h1
            omega
          have hnever' : ∀ k, (d - 1) + opensCount rest (k + 1) ≠
              closesCount rest (k + 1) := by
            intro k
            have h1 := hnever (k + 1)
            rw [hoE, hclE] at h1; omega
          have hpos' : ∀ k, closesCount rest k ≤ (d - 1) + opensCount rest k := by
            intro k
            rcases Nat.eq_zero_or_pos k with h0 | hkpos
            · subst h0; rw [opensCount_zero, closesCount_zero]; omega
            · obtain ⟨k', rfl⟩ : ∃ k', k = k' + 1 := ⟨k - 1, by omega⟩
              have h1 := hpos (k' + 1 + 1)
              rw [hoE, hclE] at h1; omega
          simp only [bracketScan, if_neg hc, if_pos rfl, hd1, if_false]
          exact ih (d - 1) (i + 1) hnever' hpos'
        · have hoE : ∀ k, opensCount (c :: rest) (k + 1) = opensCount rest k := by
            intro k; rw [opensCount_cons]; simp [hc]
          have hclE : ∀ k, closesCount (c :: rest) (k + 1) = closesCount rest k := by
            intro k; rw [closesCount_cons]; simp [hc2]
          have hnever' : ∀ k, d + opensCount rest (k + 1) ≠
              closesCount rest (k + 1) := by
            intro k
            have h1 := hnever (k + 1)
            rw [hoE, hclE] at h1; omega
          have hpos' : ∀ k, closesCount rest k ≤ d + opensCount rest k := by
            intro k
            rcases Nat.eq_zero_or_pos k with h0 | hkpos
            · subst h0; rw [opensCount_zero, closesCount_zero]; omega
            · obtain ⟨k', rfl⟩ : ∃ k', k = k' + 1 := ⟨k - 1, by omega⟩
              have h1 := hpos (k' + 1 + 1)
              rw [hoE, hclE] at h1; omega
          simp only [bracketScan, if_neg hc, if_neg hc2]
          exact ih d (i + 1) hnever' hpos'

/-- C6: on the trimmed reply text, when the start pattern (an opening
bracket immediately followed by an object literal whose first key is `op`)
matches nowhere, the extractor yields nothing and the parse cascade falls
back to the loose first-array-or-object span of `parseJsonFromResponse`;
when the pattern has a least match position `s`, the extractor returns
exactly the substring from that opening bracket to the least
bracket-depth-matched closing bracket (prose before and after discarded),
and yields nothing if the brackets never rebalance. -/
theorem c6_extractor_spec (raw : String) :
    ((∀ i, i < (jsTrimList raw.toList).length →
        matchStartAt ((jsTrimList raw.toList).drop i) = false) →
      extractPatchArrayFromText raw = none ∧
      ∀ jsonParse, parseModelReply jsonParse raw =
        jsonParse (match looseJsonSpan (jsTrimList raw.toList) with
                   | some cs => String.mk cs
                   | none => String.mk (jsTrimList raw.toList))) ∧
    (∀ s, matchStartAt ((jsTrimList raw.toList).drop s) = true →
      (∀ i, i < s → matchStartAt ((jsTrimList raw.toList).drop i) = false) →
      ((∀ m, m < ((jsTrimList raw.toList).drop s).length →
        bracketBalanced ((jsTrimList raw.toList).drop s) m →
        (∀ k, k < m → ¬ bracketBalanced ((jsTrimList raw.toList).drop s) k) →
        extractPatchArrayFromText raw =
          some (String.mk (((jsTrimList raw.toList).drop s).take (m + 1)))) ∧
      ((∀ m, ¬ bracketBalanced ((jsTrimList raw.toList).drop s) m) →
        extractPatchArrayFromText raw = none))) := by
  constructor
  · intro hnone
    have hall : ∀ i, matchStartAt ((jsTrimList raw.toList).drop i) = false := by
      intro i
      by_cases hi : i < (jsTrimList raw.toList).length
      · exact hnone i hi
      · rw [List.drop_eq_nil_of_le (by omega)]
        rfl
    have hfind : findPatchStartAux (jsTrimList raw.toList) 0 = none :=
      findPatchStartAux_none _ 0 hall
    have hex : extractPatchArrayFromText raw = none := by
      simp only [extractPatchArrayFromText, hfind]
    refine ⟨hex, ?_⟩
    intro jsonParse
    simp only [parseModelReply, hex]
    rfl
  · intro s hmatch hmin
    obtain ⟨v, hv⟩ := matchStartAt_head _ hmatch
    have hfind : findPatchStartAux (jsTrimList raw.toList) 0 = some s := by
      have h := findPatchStartAux_some (jsTrimList raw.toList) 0 s hmatch hmin
      simpa using h
    have hoE : ∀ k, opensCount ('[' :: v) (k + 1) = opensCount v k + 1 := by
      intro k; rw [opensCount_cons]; simp
    have hclE : ∀ k, closesCount ('[' :: v) (k + 1) = closesCount v k := by
      intro k; rw [closesCount_cons]; simp
    constructor
    · intro m hmlen hbal hleastm
      cases m with
      | zero =>
          exfalso
          unfold bracketBalanced at hbal
          rw [hv, hoE 0, hclE 0, opensCount_zero, closesCount_zero] at hbal
          omega
      | succ m' =>
          have hivt := closes_le_opens_of_least v (m' + 1) (by
            intro k hk
            have h1 := hleastm k hk
            unfold bracketBalanced at h1
            rw [hv] at h1
            exact h1)
          have hm' : 1 + opensCount v (m' + 1) = closesCount v (m' + 1) := by
            have h1 := hbal
            unfold bracketBalanced at h1
            rw [hv, hoE, hclE] at h1
            omega
          have hleast' : ∀ k, k < m' →
              1 + opensCount v (k + 1) ≠ closesCount v (k + 1) := by
            intro k hk
            have h1 := hleastm (k + 1) (by omega)
            unfold bracketBalanced at h1
            rw [hv, hoE, hclE] at h1
            omega
          have hpos' : ∀ k, k ≤ m' → closesCount v k ≤ 1 + opensCount v k := by
            intro k hk
            rcases Nat.eq_zero_or_pos k with h0 | hkpos
            · subst h0; rw [opensCount_zero, closesCount_zero]; omega
            · obtain ⟨k', rfl⟩ : ∃ k', k = k' + 1 := ⟨k - 1, by omega⟩
              have h1 := hivt (k' + 1 + 1) (by omega)
              rw [hoE, hclE] at h1
              omega
          have hlen' : m' < v.length := by
            rw [hv] at hmlen
            simpa using hmlen
          have hscan : bracketScan ((jsTrimList raw.toList).drop s) 0 s =
              some (s + (m' + 1)) := by
            rw [hv]
            simp only [bracketScan, if_pos rfl]
            have hr := bracketScan_some v 1 (s + 1) m' le_rfl hm' hleast' hpos' hlen'
            rw [show s + (m' + 1) = (s + 1) + m' by omega]
            exact hr
          simp only [extractPatchArrayFromText, hfind, hscan]
          rw [show s + (m' + 1) + 1 - s = (m' + 1) + 1 by omega]
    · intro hnever
      have hivt : ∀ k, closesCount ('[' :: v) k ≤ opensCount ('[' :: v) k := by
        intro k
        refine closes_le_opens_of_least v k ?_ k le_rfl
        intro j hj
        have h1 := hnever j
        unfold bracketBalanced at h1
        rw [hv] at h1
        exact h1
      have hnever' : ∀ k, 1 + opensCount v (k + 1) ≠ closesCount v (k + 1) := by
        intro k
        have h1 := hnever (k + 1)
        unfold bracketBalanced at h1
        rw [hv, hoE, hclE] at h1
        omega
      have hpos' : ∀ k, closesCount v k ≤ 1 + opensCount v k := by
        intro k
        rcases Nat.eq_zero_or_pos k with h0 | hkpos
        · subst h0; rw [opensCount_zero, closesCount_zero]; omega
        · obtain ⟨k', rfl⟩ : ∃ k', k = k' + 1 := ⟨k - 1, by omega⟩
          have h1 := hivt (k' + 1 + 1)
          rw [hoE, hclE] at h1
          omega
      have hscan : bracketScan ((jsTrimList raw.toList).drop s) 0 s = none := by
        rw [hv]
        simp only [bracketScan, if_pos rfl]
        exact bracketScan_none v 1 (s + 1) hnever' hpos'
      simp only [extractPatchArrayFromText, hfind, hscan]

/-- Witness for C6: the scenario reply with prose around the array yields
exactly the array substring, and a reply with no start pattern falls back
to the loose span. -/
theorem c6_extractor_spec_witness :
    extractPatchArrayFromText "ok [\x7b\"op\":1\x7d] end" =
      some "[\x7b\"op\":1\x7d]" ∧
    ∀ jsonParse, parseModelReply jsonParse "none here" =
      jsonParse "none here" := by
  constructor
  · have h := ((c6_extractor_spec "ok [\x7b\"op\":1\x7d] end").2 3 (by decide)
      (by decide)).1 9 (by decide) (by decide) (by decide)
    exact h.trans (by rfl)
  · intro jsonParse
    have h := ((c6_extractor_spec "none here").1 (by decide)).2 jsonParse
    exact h.trans (by rfl)

/-- Witness for C4: the scenario patch `/layers/water/paint` resolves to
`/layers/0/paint` when `water` is the first layer. -/
theorem c4_resolver_cases_witness :
    resolveLayerIdsInPatch
        (Json.obj [("layers", Json.arr [Json.obj [("id", Json.str "water")]])])
        [Json.obj [("op", Json.str "replace"),
          ("path", Json.str "/layers/water/paint"), ("value", Json.str "z")]] =
      [Json.obj [("op", Json.str "replace"),
        ("path", Json.str "/layers/0/paint"), ("value", Json.str "z")]] := by
  have h := (c4_resolver_cases [Json.obj [("id", Json.str "water")]]
    (Json.obj [("layers", Json.arr [Json.obj [("id", Json.str "water")]])])
    (Json.obj [("op", Json.str "replace"),
      ("path", Json.str "/layers/water/paint"), ("value", Json.str "z")])
    "/layers/water/paint" "water" ["paint"]
    rfl rfl (by decide) (by rfl)).2.2.1 0 (by decide) (by rfl)
  simpa using h

end StyleChat
